import Mathlib

/-
Verification of the highlight-detection core of CreatorAssistant
(src/detect.py).  The detection logic is embedded shallowly over ℚ:
score series become lists of rationals, the event log becomes an
explicit structure, and the fallible file read becomes a sum type.
External collaborators (ffmpeg, librosa's RMS, OpenCV frame capture)
are cut at the boundaries the code itself uses: their outputs (the
hop-level RMS series, the motion-score series, the container duration)
are parameters of the embedded functions.
-/

namespace CreatorAssistant

/-- A highlight candidate: the dictionary with keys start, end, score
(and source on the event path) built by src/detect.py.  The end key is
called stop here because end is a Lean keyword. -/
structure Candidate where
  start : ℚ
  stop : ℚ
  score : ℚ
  source : Option String
deriving DecidableEq, Repr

/-- One entry of the events list of game_events.json, restricted to the
fields load_highlights_from_events inspects.  Absent JSON keys are
modelled with none. -/
structure GameEvent where
  etype : String
  wall_clock : Option ℚ
  game_time : Option ℚ
  killer_name : Option String
  data_KillerName : Option String
  data_killerName : Option String
deriving DecidableEq, Repr

/-- The parsed game_events.json document: its session_start value and
its events list (src/detect.py lines 213-217, 254). -/
structure EventLog where
  session_start : Option ℚ
  events : List GameEvent
deriving DecidableEq, Repr

/-- Outcome of resolving and reading the events file (src/detect.py
lines 208-215): the file may be missing, the JSON may fail to parse, or
parsing succeeds with a document. -/
inductive EventsFileRead where
  | missing : EventsFileRead
  | unparsable : EventsFileRead
  | parsed : EventLog → EventsFileRead
deriving DecidableEq, Repr

/-- The configuration keys detect_highlights and
load_highlights_from_events read, one field per key, with the types the
code assumes.  padding_after is read by the code (line 323) but never
used, so it is omitted. -/
structure Config where
  ge_enabled : Bool
  prefer_events_over_ai : Bool
  filter_my_kills_only : Bool
  player_summoner_name : Option String
  recording_start_offset : ℚ
  duration_seconds : ℚ
  padding_before : ℚ
  min_clip_length : ℚ
  audio_weight : ℚ
  motion_weight : ℚ
  sensitivity : ℚ
  min_score : ℚ
  min_prominence : ℚ
  min_seconds_between_clips : ℚ
  max_clips_per_video : Nat
  window_seconds : ℚ
deriving DecidableEq, Repr

/-- The default value of every configuration key, as hard-coded in the
.get(key, default) calls of src/detect.py (lines 238-242, 288, 300,
313-323). -/
def defaultConfig : Config :=
  ⟨true, true, false, none, 0, 30, 3, 15, 1/2, 1/2, 1/2, 3/5, 3/20, 120, 5, 4⟩

/-- Python str.strip limited to ASCII whitespace, written with
structural recursion so that concrete instances evaluate. -/
def pyStrip (s : String) : String :=
  ⟨(((s.data.dropWhile Char.isWhitespace).reverse).dropWhile Char.isWhitespace).reverse⟩

/-- Python str.lower limited to the ASCII range (the range exercised by
the summoner names here), written so that concrete instances
evaluate. -/
def pyLower (s : String) : String := ⟨s.data.map Char.toLower⟩

/-- Python's x or y on optional strings: None and the empty string are
falsy, so they fall through to the right operand. -/
def pyOrStr (a b : Option String) : Option String :=
  match a with
  | some s => if s = "" then b else some s
  | none => b

/-- The killer-name lookup of src/detect.py line 231:
(k.get(killer_name) or k.get(data).get(KillerName) or
k.get(data).get(killerName) or default-empty).strip().lower(). -/
def killerOf (k : GameEvent) : String :=
  pyLower (pyStrip ((pyOrStr (pyOrStr k.killer_name k.data_KillerName) k.data_killerName).getD ""))

/-- np.min on a non-empty list; 0 on the empty list (the code only
applies it behind a non-emptiness guard). -/
def listMin : List ℚ → ℚ
  | [] => 0
  | x :: xs => xs.foldl min x

/-- np.max on a non-empty list; 0 on the empty list (the code only
applies it behind a non-emptiness guard). -/
def listMax : List ℚ → ℚ
  | [] => 0
  | x :: xs => xs.foldl max x

/-- normalize_scores of src/detect.py lines 192-196: rescale to [0,1];
an empty or constant series maps to all zeros. -/
def normalize_scores (scores : List ℚ) : List ℚ :=
  if scores.length = 0 ∨ listMax scores = listMin scores then
    List.replicate scores.length 0
  else
    scores.map (fun x => (x - listMin scores) / (listMax scores - listMin scores))

/-- np.mean of a list (only ever applied to non-empty slices here). -/
def mean (l : List ℚ) : ℚ := l.sum / (l.length : ℚ)

/-- Python slice l[a:b] for non-negative bounds. -/
def pySlice (l : List ℚ) (a b : Nat) : List ℚ := (l.drop a).take (b - a)

/-- The downsampling half of compute_audio_energy (src/detect.py
lines 132-140), taking the hop-level RMS series produced by librosa as
input.  hops_per_window is int(window_seconds * 2); when that integer
is 0 (window_seconds below one half) the Python floor division raises
ZeroDivisionError, modelled as none.  For non-negative window_seconds
Python's int() truncation coincides with the floor used here. -/
def compute_audio_energy_downsample (rms : List ℚ) (window_seconds : ℚ) : Option (List ℚ) :=
  let hops_per_window := (⌊window_seconds * 2⌋).toNat
  if hops_per_window = 0 then none
  else
    let n_windows := max 1 (rms.length / hops_per_window)
    if rms.length ≤ n_windows then some rms
    else some ((List.range n_windows).map (fun i =>
      mean (pySlice rms (i * rms.length / n_windows) ((i + 1) * rms.length / n_windows))))

/-- np.percentile with the default linear interpolation, for q in
[0,100]: sort ascending, take position q/100 * (n-1), interpolate
between the two neighbouring entries.  When the position is integral
the fraction is 0 and the (then possibly out-of-range) upper index is
multiplied away. -/
def npPercentile (s : List ℚ) (q : ℚ) : ℚ :=
  let sorted := List.insertionSort (fun a b => a ≤ b) s
  let pos : ℚ := q * ((s.length : ℚ) - 1) / 100
  let lo := (⌊pos⌋).toNat
  let frac := pos - (⌊pos⌋ : ℚ)
  sorted.getD lo 0 + frac * (sorted.getD (lo + 1) 0 - sorted.getD lo 0)

/-- The adaptive threshold of src/detect.py line 356: the
100 - sensitivity * 40 percentile of the combined series. -/
def signalThreshold (combined : List ℚ) (cfg : Config) : ℚ :=
  npPercentile combined (100 - cfg.sensitivity * 40)

/-- The three skip tests of the peak loop body (src/detect.py lines
360-371): non-strict local maximum, threshold and minimum score, and
prominence against the lower neighbour. -/
def passesPeakFilters (combined : List ℚ) (threshold min_score min_prominence : ℚ)
    (i : Nat) : Bool :=
  let score := combined.getD i 0
  if score < combined.getD (i - 1) 0 ∨ score < combined.getD (i + 1) 0 then false
  else if score < threshold ∨ score < min_score then false
  else
    let valley := min (combined.getD (i - 1) 0) (combined.getD (i + 1) 0)
    if score - valley < min_prominence then false
    else true

/-- The interior indices of the combined series that survive all three
skip tests of the peak loop (src/detect.py lines 360-371). -/
def qualifyingIndices (combined : List ℚ) (cfg : Config) : List Nat :=
  (List.range' 1 (combined.length - 2)).filter
    (passesPeakFilters combined (signalThreshold combined cfg) cfg.min_score cfg.min_prominence)

/-- The candidate list built by the peak loop (src/detect.py lines
359-379): each qualifying index maps to a clip window clamped into
[0, duration], kept only when at least min_clip_length long. -/
def signalCandidates (combined : List ℚ) (duration : ℚ) (cfg : Config) : List Candidate :=
  (List.range' 1 (combined.length - 2)).filterMap (fun i =>
    if passesPeakFilters combined (signalThreshold combined cfg) cfg.min_score
        cfg.min_prominence i then
      let start_sec := max 0 ((i : ℚ) * cfg.window_seconds - cfg.padding_before)
      let end_sec := min duration (start_sec + cfg.duration_seconds)
      if cfg.min_clip_length ≤ end_sec - start_sec then
        some ⟨start_sec, end_sec, combined.getD i 0, none⟩
      else none
    else none)

/-- The greedy suppression loop shared by both selectors (src/detect.py
lines 262-268 and 383-390): walk the candidate list in order, stop once
max_clips are kept, skip any candidate whose start is closer than
min_between to an already kept start. -/
def nmsGo (min_between : ℚ) (max_clips : Nat) :
    List Candidate → List Candidate → List Candidate
  | [], selected => selected
  | c :: rest, selected =>
    if max_clips ≤ selected.length then selected
    else if selected.any (fun s => decide (|c.start - s.start| < min_between)) then
      nmsGo min_between max_clips rest selected
    else
      nmsGo min_between max_clips rest (selected ++ [c])

/-- Non-maximum suppression starting from an empty kept list. -/
def nmsSelect (cands : List Candidate) (min_between : ℚ) (max_clips : Nat) : List Candidate :=
  nmsGo min_between max_clips cands []

/-- np.pad with mode edge followed by truncation to n entries
(src/detect.py lines 342-344 and 350-352): right-pad with the last
value when shorter than n, then cut at n. -/
def edgePadTo (s : List ℚ) (n : Nat) : List ℚ :=
  (s ++ List.replicate (n - s.length) (s.getLastD 0)).take n

/-- The signal pipeline of detect_highlights downstream of the external
estimators (src/detect.py lines 338-393): normalize the audio-energy
and motion series, align both to n_windows, fuse with the configured
weights, find prominent peaks over the adaptive threshold, apply
non-maximum suppression in descending score order, and return the kept
candidates in ascending start order.  audio_energy and motion_scores
are the outputs of compute_audio_energy and compute_motion_scores; the
Nat coercion of duration / window_seconds mirrors Python's int() for
the non-negative quotients that occur (division by a zero
window_seconds would raise in Python and is out of modelled range). -/
def detectSignalPath (audio_energy motion_scores : List ℚ) (duration : ℚ)
    (cfg : Config) : List Candidate :=
  let audio_norm0 := normalize_scores audio_energy
  let n_windows := max audio_norm0.length (⌊duration / cfg.window_seconds⌋).toNat
  let audio_norm := edgePadTo audio_norm0 n_windows
  let motion_norm := edgePadTo (normalize_scores motion_scores) n_windows
  let combined := List.zipWith
    (fun a m => cfg.audio_weight * a + cfg.motion_weight * m) audio_norm motion_norm
  let selected := nmsSelect
    (List.insertionSort (fun a b => b.score ≤ a.score) (signalCandidates combined duration cfg))
    cfg.min_seconds_between_clips cfg.max_clips_per_video
  List.insertionSort (fun a b => a.start ≤ b.start) selected

/-- One candidate of the event path (src/detect.py lines 251-258):
wall_clock falls back to game_time + session_start, video-relative time
is wall_clock - video_start_time + offset, the start is clamped at 0,
the end is start + clip_duration, and the score is the constant 1. -/
def eventCandidate (session_start : Option ℚ)
    (video_start_time offset clip_duration padding_before : ℚ) (k : GameEvent) : Candidate :=
  let wall_clock := k.wall_clock.getD (k.game_time.getD 0 + session_start.getD 0)
  let video_sec := wall_clock - video_start_time + offset
  let start_sec := max 0 (video_sec - padding_before)
  ⟨start_sec, start_sec + clip_duration, 1, some "game_events"⟩

/-- load_highlights_from_events (src/detect.py lines 199-270).
video_start_time is os.path.getctime of the video.  Returns none on a
missing file, unparsable JSON, no ChampionKill events, or an enabled
killer filter with a configured name that matches no kill; otherwise
the spaced, capped candidate list in ascending start order. -/
def load_highlights_from_events (fileRead : EventsFileRead) (video_start_time : ℚ)
    (cfg : Config) : Option (List Candidate) :=
  match fileRead with
  | .missing => none
  | .unparsable => none
  | .parsed data =>
    let kills0 := data.events.filter (fun e => decide (e.etype = "ChampionKill"))
    if kills0.isEmpty then none
    else
      let player_name := pyLower (pyStrip (cfg.player_summoner_name.getD ""))
      let filtering := cfg.filter_my_kills_only && !(decide (player_name = ""))
      let kills := if filtering then kills0.filter (fun k => decide (killerOf k = player_name))
                   else kills0
      if filtering && kills.isEmpty then none
      else
        let candidates := kills.map (eventCandidate data.session_start video_start_time
          cfg.recording_start_offset cfg.duration_seconds cfg.padding_before)
        let sorted := List.insertionSort (fun a b => a.start ≤ b.start) candidates
        some (nmsSelect sorted cfg.min_seconds_between_clips cfg.max_clips_per_video)

/-- detect_highlights (src/detect.py lines 273-393).  The events file
is attempted only when both game_events.enabled and
prefer_events_over_ai are set; a truthy (non-empty) event result is
returned as-is, anything falsy (None or an empty list) falls through to
the signal pipeline.  fileRead stands for the outcome of the path
resolution and read of the events file. -/
def detect_highlights (cfg : Config) (fileRead : EventsFileRead) (video_start_time : ℚ)
    (audio_energy motion_scores : List ℚ) (duration : ℚ) : List Candidate :=
  if cfg.ge_enabled && cfg.prefer_events_over_ai then
    match load_highlights_from_events fileRead video_start_time cfg with
    | some highlights =>
      if highlights.isEmpty then detectSignalPath audio_energy motion_scores duration cfg
      else highlights
    | none => detectSignalPath audio_energy motion_scores duration cfg
  else detectSignalPath audio_energy motion_scores duration cfg

/-! Basic facts about the fold-based minimum and maximum. -/

theorem normalize_eq_ite (s : List ℚ) :
    normalize_scores s = if s.length = 0 ∨ listMax s = listMin s
      then List.replicate s.length 0
      else s.map (fun x => (x - listMin s) / (listMax s - listMin s)) := rfl

theorem foldl_min_le_init : ∀ (l : List ℚ) (a : ℚ), l.foldl min a ≤ a := by
  intro l
  induction l with
  | nil => intro a; simp
  | cons b t ih => intro a; exact le_trans (ih (min a b)) (min_le_left a b)

theorem foldl_min_le_mem : ∀ (l : List ℚ) (a x : ℚ), x ∈ l → l.foldl min a ≤ x := by
  intro l
  induction l with
  | nil => intro a x hx; cases hx
  | cons b t ih =>
    intro a x hx
    rcases List.mem_cons.mp hx with h | h
    · subst h; exact le_trans (foldl_min_le_init t (min a x)) (min_le_right a x)
    · exact ih (min a b) x h

theorem foldl_max_init_le : ∀ (l : List ℚ) (a : ℚ), a ≤ l.foldl max a := by
  intro l
  induction l with
  | nil => intro a; simp
  | cons b t ih => intro a; exact le_trans (le_max_left a b) (ih (max a b))

theorem foldl_max_mem_le : ∀ (l : List ℚ) (a x : ℚ), x ∈ l → x ≤ l.foldl max a := by
  intro l
  induction l with
  | nil => intro a x hx; cases hx
  | cons b t ih =>
    intro a x hx
    rcases List.mem_cons.mp hx with h | h
    · subst h; exact le_trans (le_max_right a x) (foldl_max_init_le t (max a x))
    · exact ih (max a b) x h

theorem listMin_le_mem {s : List ℚ} {x : ℚ} (hx : x ∈ s) : listMin s ≤ x := by
  cases s with
  | nil => cases hx
  | cons y t =>
    rcases List.mem_cons.mp hx with h | h
    · subst h; exact foldl_min_le_init t x
    · exact foldl_min_le_mem t y x h

theorem mem_le_listMax {s : List ℚ} {x : ℚ} (hx : x ∈ s) : x ≤ listMax s := by
  cases s with
  | nil => cases hx
  | cons y t =>
    rcases List.mem_cons.mp hx with h | h
    · subst h; exact foldl_max_init_le t x
    · exact foldl_max_mem_le t y x h

theorem listMin_le_listMax {s : List ℚ} (hs : s ≠ []) : listMin s ≤ listMax s := by
  cases s with
  | nil => exact absurd rfl hs
  | cons y t =>
    exact le_trans (listMin_le_mem (List.mem_cons_self y t))
      (mem_le_listMax (List.mem_cons_self y t))

/-- C5: normalize_scores rescales every entry to
(x - min s) / (max s - min s), returns an all-zero series of the same
length on an empty or constant input, and consequently every output
value lies in [0, 1]. -/
theorem normalize_scores_spec (s : List ℚ) :
    (s.length = 0 ∨ listMax s = listMin s →
      normalize_scores s = List.replicate s.length 0)
    ∧ (¬(s.length = 0 ∨ listMax s = listMin s) →
      normalize_scores s = s.map (fun x => (x - listMin s) / (listMax s - listMin s)))
    ∧ (∀ y ∈ normalize_scores s, 0 ≤ y ∧ y ≤ 1) := by
  refine ⟨fun h => by rw [normalize_eq_ite, if_pos h],
    fun h => by rw [normalize_eq_ite, if_neg h], ?_⟩
  intro y hy
  by_cases h : s.length = 0 ∨ listMax s = listMin s
  · rw [normalize_eq_ite, if_pos h] at hy
    rcases List.eq_of_mem_replicate hy with rfl
    norm_num
  · rw [normalize_eq_ite, if_neg h] at hy
    push_neg at h
    obtain ⟨hne, hMm⟩ := h
    obtain ⟨x, hx, rfl⟩ := List.mem_map.mp hy
    have hxm : listMin s ≤ x := listMin_le_mem hx
    have hxM : x ≤ listMax s := mem_le_listMax hx
    have hlt : listMin s < listMax s := lt_of_le_of_ne (le_trans hxm hxM) (Ne.symm hMm)
    have hpos : 0 < listMax s - listMin s := by linarith
    constructor
    · exact div_nonneg (by linarith) hpos.le
    · rw [div_le_one hpos]; linarith

/-- C5 witness: the normalizer specification instantiated at the
series [0, 2], whose normalization is [0, 1]. -/
theorem normalize_scores_spec_witness :
    normalize_scores [0, 2] = [0, 1] := by
  have h := (normalize_scores_spec [0, 2]).2.1
  rw [h (by norm_num [listMax, listMin])]
  norm_num [listMax, listMin]

theorem foldl_min_map (f : ℚ → ℚ) (hf : ∀ a b : ℚ, f (min a b) = min (f a) (f b)) :
    ∀ (l : List ℚ) (a : ℚ), (l.map f).foldl min (f a) = f (l.foldl min a) := by
  intro l
  induction l with
  | nil => intro a; simp
  | cons b t ih => intro a; simpa [← hf] using ih (min a b)

theorem foldl_max_map (f : ℚ → ℚ) (hf : ∀ a b : ℚ, f (max a b) = max (f a) (f b)) :
    ∀ (l : List ℚ) (a : ℚ), (l.map f).foldl max (f a) = f (l.foldl max a) := by
  intro l
  induction l with
  | nil => intro a; simp
  | cons b t ih => intro a; simpa [← hf] using ih (max a b)

theorem listMin_map (f : ℚ → ℚ) (hf : ∀ a b : ℚ, f (min a b) = min (f a) (f b)) :
    ∀ s : List ℚ, s ≠ [] → listMin (s.map f) = f (listMin s) := by
  intro s hs
  cases s with
  | nil => exact absurd rfl hs
  | cons y t => simpa [listMin] using foldl_min_map f hf t y

theorem listMax_map (f : ℚ → ℚ) (hf : ∀ a b : ℚ, f (max a b) = max (f a) (f b)) :
    ∀ s : List ℚ, s ≠ [] → listMax (s.map f) = f (listMax s) := by
  intro s hs
  cases s with
  | nil => exact absurd rfl hs
  | cons y t => simpa [listMax] using foldl_max_map f hf t y

/-- C9: on a non-constant series whose values already lie in [0, 1],
normalize_scores is idempotent (the second application is the identity
because the first one already attains both 0 and 1). -/
theorem normalize_scores_idempotent (s : List ℚ) (hnc : listMax s ≠ listMin s)
    (hin : ∀ x ∈ s, 0 ≤ x ∧ x ≤ 1) :
    normalize_scores (normalize_scores s) = normalize_scores s := by
  have hne : s ≠ [] := by
    intro h; subst h; simp [listMax, listMin] at hnc
  have hcond : ¬(s.length = 0 ∨ listMax s = listMin s) := by
    rintro (h | h)
    · exact hne (List.length_eq_zero.mp h)
    · exact hnc h
  have hlt : listMin s < listMax s :=
    lt_of_le_of_ne (listMin_le_listMax hne) (Ne.symm hnc)
  have hpos : 0 < listMax s - listMin s := by linarith
  have hfmin : ∀ a b : ℚ, (min a b - listMin s) / (listMax s - listMin s)
      = min ((a - listMin s) / (listMax s - listMin s))
          ((b - listMin s) / (listMax s - listMin s)) := by
    intro a b
    rcases le_total a b with h | h
    · rw [min_eq_left h, min_eq_left ((div_le_div_iff_of_pos_right hpos).mpr (by linarith))]
    · rw [min_eq_right h, min_eq_right ((div_le_div_iff_of_pos_right hpos).mpr (by linarith))]
  have hfmax : ∀ a b : ℚ, (max a b - listMin s) / (listMax s - listMin s)
      = max ((a - listMin s) / (listMax s - listMin s))
          ((b - listMin s) / (listMax s - listMin s)) := by
    intro a b
    rcases le_total a b with h | h
    · rw [max_eq_right h, max_eq_right ((div_le_div_iff_of_pos_right hpos).mpr (by linarith))]
    · rw [max_eq_left h, max_eq_left ((div_le_div_iff_of_pos_right hpos).mpr (by linarith))]
  have hmap : normalize_scores s
      = s.map (fun x => (x - listMin s) / (listMax s - listMin s)) := by
    rw [normalize_eq_ite, if_neg hcond]
  have hMin : listMin (normalize_scores s) = 0 := by
    rw [hmap, listMin_map _ hfmin s hne, sub_self, zero_div]
  have hMax : listMax (normalize_scores s) = 1 := by
    rw [hmap, listMax_map _ hfmax s hne, div_self (ne_of_gt hpos)]
  have hcond2 : ¬((normalize_scores s).length = 0 ∨
      listMax (normalize_scores s) = listMin (normalize_scores s)) := by
    rintro (h | h)
    · rw [hmap, List.length_map] at h
      exact hne (List.length_eq_zero.mp h)
    · rw [hMin, hMax] at h; norm_num at h
  rw [normalize_eq_ite (normalize_scores s), if_neg hcond2, hMin, hMax]
  simp

/-- C9 witness: idempotence instantiated at the non-constant series
[0, 1/2, 1], already in [0, 1]. -/
theorem normalize_scores_idempotent_witness :
    normalize_scores (normalize_scores [0, 1/2, 1]) = normalize_scores [0, 1/2, 1] :=
  normalize_scores_idempotent [0, 1/2, 1] (by norm_num [listMax, listMin])
    (by intro x hx; fin_cases hx <;> norm_num)

theorem nmsGo_nil (m : ℚ) (k : Nat) (sel : List Candidate) : nmsGo m k [] sel = sel := rfl

theorem nmsGo_cons (m : ℚ) (k : Nat) (c : Candidate) (rest sel : List Candidate) :
    nmsGo m k (c :: rest) sel =
      if k ≤ sel.length then sel
      else if sel.any (fun s => decide (|c.start - s.start| < m)) then
        nmsGo m k rest sel
      else nmsGo m k rest (sel ++ [c]) := rfl

theorem nmsGo_pairwise (m : ℚ) (k : Nat) :
    ∀ (cands sel : List Candidate),
      List.Pairwise (fun a b => m ≤ |a.start - b.start|) sel →
      List.Pairwise (fun a b => m ≤ |a.start - b.start|) (nmsGo m k cands sel) := by
  intro cands
  induction cands with
  | nil => intro sel h; rwa [nmsGo_nil]
  | cons c rest ih =>
    intro sel h
    rw [nmsGo_cons]
    by_cases h1 : k ≤ sel.length
    · rwa [if_pos h1]
    · rw [if_neg h1]
      by_cases h2 : sel.any (fun s => decide (|c.start - s.start| < m)) = true
      · rw [if_pos h2]; exact ih sel h
      · rw [if_neg h2]
        refine ih (sel ++ [c]) ?_
        rw [List.pairwise_append]
        refine ⟨h, List.pairwise_singleton _ _, ?_⟩
        intro a ha b hb
        rcases List.mem_singleton.mp hb with rfl
        simp only [List.any_eq_true, not_exists, not_and] at h2
        have h3 := h2 a ha
        rw [decide_eq_true_eq] at h3
        rw [abs_sub_comm]
        exact not_lt.mp h3

theorem nmsGo_length_le (m : ℚ) (k : Nat) :
    ∀ (cands sel : List Candidate), sel.length ≤ k → (nmsGo m k cands sel).length ≤ k := by
  intro cands
  induction cands with
  | nil => intro sel h; rwa [nmsGo_nil]
  | cons c rest ih =>
    intro sel h
    rw [nmsGo_cons]
    by_cases h1 : k ≤ sel.length
    · rwa [if_pos h1]
    · rw [if_neg h1]
      by_cases h2 : sel.any (fun s => decide (|c.start - s.start| < m)) = true
      · rw [if_pos h2]; exact ih sel h
      · rw [if_neg h2]
        refine ih (sel ++ [c]) ?_
        have : sel.length < k := not_le.mp h1
        simpa using this

theorem nmsGo_mem (m : ℚ) (k : Nat) :
    ∀ (cands sel : List Candidate) (c : Candidate),
      c ∈ nmsGo m k cands sel → c ∈ sel ∨ c ∈ cands := by
  intro cands
  induction cands with
  | nil => intro sel c hc; rw [nmsGo_nil] at hc; exact Or.inl hc
  | cons c0 rest ih =>
    intro sel c hc
    rw [nmsGo_cons] at hc
    by_cases h1 : k ≤ sel.length
    · rw [if_pos h1] at hc; exact Or.inl hc
    · rw [if_neg h1] at hc
      by_cases h2 : sel.any (fun s => decide (|c0.start - s.start| < m)) = true
      · rw [if_pos h2] at hc
        rcases ih sel c hc with h | h
        · exact Or.inl h
        · exact Or.inr (List.mem_cons_of_mem _ h)
      · rw [if_neg h2] at hc
        rcases ih (sel ++ [c0]) c hc with h | h
        · rcases List.mem_append.mp h with h | h
          · exact Or.inl h
          · rcases List.mem_singleton.mp h with rfl
            exact Or.inr (List.mem_cons_self _ _)
        · exact Or.inr (List.mem_cons_of_mem _ h)

end CreatorAssistant

namespace CreatorAssistant

theorem load_eq_some (fileRead : EventsFileRead) (vst : ℚ) (cfg : Config)
    (l : List Candidate) (hl : load_highlights_from_events fileRead vst cfg = some l) :
    ∃ cands, l = nmsSelect cands cfg.min_seconds_between_clips cfg.max_clips_per_video := by
  cases fileRead with
  | missing => simp [load_highlights_from_events] at hl
  | unparsable => simp [load_highlights_from_events] at hl
  | parsed data =>
    simp only [load_highlights_from_events] at hl
    split_ifs at hl
    all_goals cases hl
    all_goals exact ⟨_, rfl⟩

theorem detectSignalPath_eq (ae ms : List ℚ) (dur : ℚ) (cfg : Config) :
    ∃ cands, detectSignalPath ae ms dur cfg
      = List.insertionSort (fun a b => a.start ≤ b.start)
          (nmsSelect cands cfg.min_seconds_between_clips cfg.max_clips_per_video) :=
  ⟨_, rfl⟩

/-- C2: any list returned by either selector is pairwise separated by at
least min_seconds_between_clips in start time and has at most
max_clips_per_video entries. -/
theorem selector_spacing_and_cap (cfg : Config) :
    (∀ fileRead vst l, load_highlights_from_events fileRead vst cfg = some l →
      List.Pairwise (fun a b => cfg.min_seconds_between_clips ≤ |a.start - b.start|) l
        ∧ l.length ≤ cfg.max_clips_per_video)
    ∧ (∀ ae ms dur,
      List.Pairwise (fun a b => cfg.min_seconds_between_clips ≤ |a.start - b.start|)
        (detectSignalPath ae ms dur cfg)
      ∧ (detectSignalPath ae ms dur cfg).length ≤ cfg.max_clips_per_video) := by
  have hsymm : ∀ {x y : Candidate}, cfg.min_seconds_between_clips ≤ |x.start - y.start| →
      cfg.min_seconds_between_clips ≤ |y.start - x.start| := by
    intro x y h; rwa [abs_sub_comm]
  constructor
  · intro fileRead vst l hl
    obtain ⟨cands, rfl⟩ := load_eq_some fileRead vst cfg l hl
    exact ⟨nmsGo_pairwise _ _ cands [] List.Pairwise.nil,
      nmsGo_length_le _ _ cands [] (Nat.zero_le _)⟩
  · intro ae ms dur
    obtain ⟨cands, heq⟩ := detectSignalPath_eq ae ms dur cfg
    rw [heq]
    constructor
    · exact ((List.perm_insertionSort _ _).pairwise_iff hsymm).mpr
        (nmsGo_pairwise _ _ cands [] List.Pairwise.nil)
    · rw [List.length_insertionSort]
      exact nmsGo_length_le _ _ cands [] (Nat.zero_le _)

/-- C2 witness: the cap and spacing facts instantiated at a concrete
two-kill event log and a concrete signal input. -/
theorem selector_spacing_and_cap_witness :
    List.Pairwise (fun a b => defaultConfig.min_seconds_between_clips ≤ |a.start - b.start|)
      [Candidate.mk 97 127 1 (some "game_events")]
    ∧ [Candidate.mk 97 127 1 (some "game_events")].length
        ≤ defaultConfig.max_clips_per_video := by
  refine (selector_spacing_and_cap defaultConfig).1
    (.parsed ⟨none, [⟨"ChampionKill", some 100, none, none, none, none⟩]⟩) 0 _ ?_
  norm_num [load_highlights_from_events, eventCandidate, nmsSelect, nmsGo, defaultConfig,
    List.insertionSort, List.orderedInsert, List.filter, max_def]

/-- C6: the Event Highlight Selector reports no usable events (none,
never an empty success list and never an error) whenever the events
file is missing, its JSON is unparsable, the log holds no ChampionKill
events, or the enabled case-insensitive killer filter with a non-empty
configured player name matches no kill. -/
theorem event_selector_fallback_conditions (vst : ℚ) (cfg : Config) :
    load_highlights_from_events .missing vst cfg = none
    ∧ load_highlights_from_events .unparsable vst cfg = none
    ∧ (∀ log : EventLog,
        log.events.filter (fun e => decide (e.etype = "ChampionKill")) = [] →
        load_highlights_from_events (.parsed log) vst cfg = none)
    ∧ (∀ log : EventLog, cfg.filter_my_kills_only = true →
        pyLower (pyStrip (cfg.player_summoner_name.getD "")) ≠ "" →
        (∀ k ∈ log.events.filter (fun e => decide (e.etype = "ChampionKill")),
          killerOf k ≠ pyLower (pyStrip (cfg.player_summoner_name.getD ""))) →
        load_highlights_from_events (.parsed log) vst cfg = none) := by
  refine ⟨rfl, rfl, ?_, ?_⟩
  · intro log h
    simp [load_highlights_from_events, h]
  · intro log hf hname hmiss
    have hfilter : (log.events.filter (fun e => decide (e.etype = "ChampionKill"))).filter
        (fun k => decide (killerOf k = pyLower (pyStrip (cfg.player_summoner_name.getD ""))))
        = [] := by
      rw [List.filter_eq_nil_iff]
      intro k hk
      simpa using hmiss k hk
    by_cases h0 : (log.events.filter (fun e => decide (e.etype = "ChampionKill"))).isEmpty
    · simp [load_highlights_from_events, h0]
    · simp [load_highlights_from_events, h0, hf, hname, hfilter]

/-- C6 witness: the killer-filter-miss fallback instantiated at a log
whose only kill is by another player while filtering for player Me. -/
theorem event_selector_fallback_conditions_witness :
    load_highlights_from_events
      (.parsed ⟨none, [⟨"ChampionKill", some 100, none, some "Rival", none, none⟩]⟩) 0
      ⟨true, true, true, some "Me", 0, 30, 3, 15, 1/2, 1/2, 1/2, 3/5, 3/20, 120, 5, 4⟩
      = none :=
  (event_selector_fallback_conditions 0 _).2.2.2 _ rfl (by decide) (by decide)

theorem load_parsed_eq_some_struct (data : EventLog) (vst : ℚ) (cfg : Config)
    (l : List Candidate)
    (hl : load_highlights_from_events (.parsed data) vst cfg = some l) :
    ∃ kills : List GameEvent,
      l = nmsSelect (List.insertionSort (fun a b => a.start ≤ b.start)
        (kills.map (eventCandidate data.session_start vst
          cfg.recording_start_offset cfg.duration_seconds cfg.padding_before)))
        cfg.min_seconds_between_clips cfg.max_clips_per_video := by
  simp only [load_highlights_from_events] at hl
  split_ifs at hl
  all_goals cases hl
  all_goals exact ⟨_, rfl⟩

/-- C10: every event-path candidate ends exactly at start +
duration_seconds and starts at or after 0; the event path never clamps
against the video duration (for every bound D some event log yields a
candidate starting after D), whereas every signal-path candidate ends
at or before the video duration. -/
theorem event_path_no_duration_clamp :
    (∀ (fileRead : EventsFileRead) (vst : ℚ) (cfg : Config) (l : List Candidate),
      load_highlights_from_events fileRead vst cfg = some l →
      ∀ c ∈ l, c.stop = c.start + cfg.duration_seconds ∧ 0 ≤ c.start)
    ∧ (∀ D : ℚ, ∃ c, load_highlights_from_events
        (.parsed ⟨none, [⟨"ChampionKill", some (D + 100), none, none, none, none⟩]⟩)
        0 defaultConfig = some [c] ∧ D < c.start)
    ∧ (∀ (ae ms : List ℚ) (dur : ℚ) (cfg : Config),
        ∀ c ∈ detectSignalPath ae ms dur cfg, c.stop ≤ dur) := by
  refine ⟨?_, ?_, ?_⟩
  · intro fileRead vst cfg l hl c hc
    cases fileRead with
    | missing => simp [load_highlights_from_events] at hl
    | unparsable => simp [load_highlights_from_events] at hl
    | parsed data =>
      obtain ⟨kills, rfl⟩ := load_parsed_eq_some_struct data vst cfg l hl
      rcases nmsGo_mem _ _ _ _ c hc with h | h
      · cases h
      · rw [List.mem_insertionSort] at h
        obtain ⟨k, hk, rfl⟩ := List.mem_map.mp h
        exact ⟨rfl, le_max_left 0 _⟩
  · intro D
    have harith : D + 100 - 0 + 0 - 3 = D + 97 := by ring
    have harith2 : D + 100 - 3 = D + 97 := by ring
    refine ⟨⟨max 0 (D + 97), max 0 (D + 97) + 30, 1, some "game_events"⟩, ?_, ?_⟩
    · norm_num [load_highlights_from_events, eventCandidate, nmsSelect, nmsGo, defaultConfig,
        List.insertionSort, List.orderedInsert, List.filter, harith, harith2]
    · exact lt_of_lt_of_le (by linarith) (le_max_right 0 (D + 97))
  · intro ae ms dur cfg c hc
    unfold detectSignalPath at hc
    rw [List.mem_insertionSort] at hc
    rcases nmsGo_mem _ _ _ _ c hc with h | h
    · cases h
    · rw [List.mem_insertionSort] at h
      obtain ⟨i, hi, hfa⟩ := List.mem_filterMap.mp h
      dsimp only at hfa
      split_ifs at hfa
      rcases Option.some.inj hfa with rfl
      exact min_le_left dur _

/-- C10 witness: the event-path invariant instantiated at a concrete
one-kill log, and the never-clamped start instantiated at bound 10. -/
theorem event_path_no_duration_clamp_witness :
    ((⟨97, 127, 1, some "game_events"⟩ : Candidate).stop
      = (⟨97, 127, 1, some "game_events"⟩ : Candidate).start + defaultConfig.duration_seconds
    ∧ (0:ℚ) ≤ (⟨97, 127, 1, some "game_events"⟩ : Candidate).start)
    ∧ ∃ c, load_highlights_from_events
        (.parsed ⟨none, [⟨"ChampionKill", some ((10:ℚ) + 100), none, none, none, none⟩]⟩)
        0 defaultConfig = some [c] ∧ (10:ℚ) < c.start := by
  constructor
  · refine event_path_no_duration_clamp.1
      (.parsed ⟨none, [⟨"ChampionKill", some 100, none, none, none, none⟩]⟩) 0 defaultConfig
      [⟨97, 127, 1, some "game_events"⟩] ?_ _ (List.mem_singleton.mpr rfl)
    norm_num [load_highlights_from_events, eventCandidate, nmsSelect, nmsGo, defaultConfig,
      List.insertionSort, List.orderedInsert, List.filter, max_def]
  · exact event_path_no_duration_clamp.2.1 10

/-- C1 counterexample: with game_events.enabled true but
prefer_events_over_ai false, the Event Selector would return a
non-empty candidate list, yet detect_highlights runs the signal
pipeline instead (here returning no candidates), refuting the claim
that enabled alone triggers the short-circuit. -/
theorem orchestrator_needs_prefer_flag_cex :
    (⟨true, false, false, none, 0, 30, 3, 15, 1/2, 1/2, 1/2, 3/5, 3/20, 120, 5, 4⟩
        : Config).ge_enabled = true
    ∧ load_highlights_from_events
        (.parsed ⟨none, [⟨"ChampionKill", some 100, none, none, none, none⟩]⟩) 0
        ⟨true, false, false, none, 0, 30, 3, 15, 1/2, 1/2, 1/2, 3/5, 3/20, 120, 5, 4⟩
      = some [⟨97, 127, 1, some "game_events"⟩]
    ∧ detect_highlights
        ⟨true, false, false, none, 0, 30, 3, 15, 1/2, 1/2, 1/2, 3/5, 3/20, 120, 5, 4⟩
        (.parsed ⟨none, [⟨"ChampionKill", some 100, none, none, none, none⟩]⟩) 0
        [0, 0, 0, 0] [0, 0, 0, 0] 16
      = [] := by
  refine ⟨rfl, ?_, ?_⟩
  · norm_num [load_highlights_from_events, eventCandidate, nmsSelect, nmsGo,
      List.insertionSort, List.orderedInsert, List.filter, max_def]
  · norm_num [detect_highlights, detectSignalPath, normalize_scores, listMax, listMin,
      edgePadTo, signalCandidates, passesPeakFilters, signalThreshold, npPercentile,
      nmsSelect, nmsGo, List.insertionSort, List.orderedInsert, List.range', max_def]

/-- C1 amended: when both game_events.enabled and prefer_events_over_ai
are set, a non-empty Event Selector result is returned unchanged and
the signal pipeline is bypassed, while a falsy result (none or the
empty list) falls through to the signal pipeline; when either flag is
unset the signal pipeline runs unconditionally. -/
theorem orchestrator_short_circuit (cfg : Config) (fileRead : EventsFileRead)
    (vst : ℚ) (ae ms : List ℚ) (dur : ℚ) :
    (cfg.ge_enabled = true → cfg.prefer_events_over_ai = true →
      (∀ hs, load_highlights_from_events fileRead vst cfg = some hs → hs ≠ [] →
        detect_highlights cfg fileRead vst ae ms dur = hs)
      ∧ (load_highlights_from_events fileRead vst cfg = none ∨
          load_highlights_from_events fileRead vst cfg = some [] →
        detect_highlights cfg fileRead vst ae ms dur = detectSignalPath ae ms dur cfg))
    ∧ (cfg.ge_enabled = false ∨ cfg.prefer_events_over_ai = false →
        detect_highlights cfg fileRead vst ae ms dur = detectSignalPath ae ms dur cfg) := by
  constructor
  · intro h1 h2
    constructor
    · intro hs hload hne
      rw [detect_highlights, if_pos (by rw [h1, h2]; rfl), hload]
      dsimp only
      rw [if_neg (by simpa [List.isEmpty_iff] using hne)]
    · intro hload
      rcases hload with hload | hload
      · rw [detect_highlights, if_pos (by rw [h1, h2]; rfl), hload]
      · rw [detect_highlights, if_pos (by rw [h1, h2]; rfl), hload]
        simp
  · intro h
    rw [detect_highlights, if_neg ?_]
    rcases h with h | h <;> simp [h]

/-- C1 witness: the short-circuit instantiated at a concrete one-kill
log under the default configuration. -/
theorem orchestrator_short_circuit_witness :
    detect_highlights defaultConfig
      (.parsed ⟨none, [⟨"ChampionKill", some 100, none, none, none, none⟩]⟩) 0
      [0, 0, 0, 0] [0, 0, 0, 0] 16
    = [⟨97, 127, 1, some "game_events"⟩] := by
  refine ((orchestrator_short_circuit defaultConfig
    (.parsed ⟨none, [⟨"ChampionKill", some 100, none, none, none, none⟩]⟩) 0
    [0, 0, 0, 0] [0, 0, 0, 0] 16).1 rfl rfl).1 _ ?_ (by norm_num)
  norm_num [load_highlights_from_events, eventCandidate, nmsSelect, nmsGo, defaultConfig,
    List.insertionSort, List.orderedInsert, List.filter, max_def]

/-- C8 counterexample: window_seconds = 1/4 is positive and the RMS
series [1] is non-empty, yet the downsampling returns no series at all:
int(window_seconds * 2) is 0 and the Python floor division raises
ZeroDivisionError. -/
theorem audio_downsample_zero_division_cex :
    (0 : ℚ) < 1/4 ∧ ([(1 : ℚ)] ≠ [])
    ∧ compute_audio_energy_downsample [1] (1/4) = none := by
  refine ⟨by norm_num, by norm_num, ?_⟩
  norm_num [compute_audio_energy_downsample]

/-- C8 amended: for a non-empty RMS series and window_seconds at least
1/2 (so that hops_per_window = int(2 * window_seconds) is at least 1),
the downsampling succeeds with a series of length exactly
max(1, hop_count / hops_per_window), and whenever that window count
already reaches the hop count the hop-level series is returned
unchanged. -/
theorem audio_downsample_length (rms : List ℚ) (ws : ℚ) (hrms : rms ≠ [])
    (hws : 1/2 ≤ ws) :
    ∃ l, compute_audio_energy_downsample rms ws = some l
      ∧ l.length = max 1 (rms.length / (⌊ws * 2⌋).toNat)
      ∧ (rms.length ≤ max 1 (rms.length / (⌊ws * 2⌋).toNat) → l = rms) := by
  have hfl : (1 : ℤ) ≤ ⌊ws * 2⌋ := by
    rw [Int.le_floor]
    push_cast
    linarith
  have hpw : (⌊ws * 2⌋).toNat ≠ 0 := by
    omega
  have hlen : 1 ≤ rms.length := List.length_pos.mpr hrms
  rw [compute_audio_energy_downsample]
  rw [if_neg hpw]
  by_cases hc : rms.length ≤ max 1 (rms.length / (⌊ws * 2⌋).toNat)
  · rw [if_pos hc]
    have hdle : rms.length / (⌊ws * 2⌋).toNat ≤ rms.length := Nat.div_le_self _ _
    have : max 1 (rms.length / (⌊ws * 2⌋).toNat) = rms.length := by omega
    exact ⟨rms, rfl, by omega, fun _ => rfl⟩
  · rw [if_neg hc]
    refine ⟨_, rfl, ?_, fun h => absurd h hc⟩
    rw [List.length_map, List.length_range]

/-- C8 witness: the amended length law instantiated at the four-hop
series [1,2,3,4] with window_seconds = 1, giving two buckets of two
hops each. -/
theorem audio_downsample_length_witness :
    ∃ l, compute_audio_energy_downsample [1, 2, 3, 4] 1 = some l
      ∧ l.length = max 1 ([(1:ℚ), 2, 3, 4].length / (⌊(1:ℚ) * 2⌋).toNat)
      ∧ ([(1:ℚ), 2, 3, 4].length ≤ max 1 ([(1:ℚ), 2, 3, 4].length / (⌊(1:ℚ) * 2⌋).toNat)
          → l = [1, 2, 3, 4]) :=
  audio_downsample_length [1, 2, 3, 4] 1 (by simp) (by norm_num)

theorem mem_range_one (s n m : Nat) : m ∈ List.range' s n ↔ s ≤ m ∧ m < s + n := by
  rw [List.mem_range']
  constructor
  · rintro ⟨i, hi, rfl⟩; omega
  · rintro ⟨h1, h2⟩; exact ⟨m - s, by omega, by omega⟩

theorem passesPeakFilters_eq_true (combined : List ℚ) (t ms mp : ℚ) (i : Nat) :
    passesPeakFilters combined t ms mp i = true ↔
      (combined.getD (i - 1) 0 ≤ combined.getD i 0
        ∧ combined.getD (i + 1) 0 ≤ combined.getD i 0)
      ∧ (t ≤ combined.getD i 0 ∧ ms ≤ combined.getD i 0)
      ∧ mp ≤ combined.getD i 0
          - min (combined.getD (i - 1) 0) (combined.getD (i + 1) 0) := by
  rw [passesPeakFilters]
  dsimp only
  split_ifs with ha hb hc
  · simp only [false_iff]
    rintro ⟨⟨h1, h2⟩, -, -⟩
    rcases ha with ha | ha <;> linarith
  · simp only [false_iff]
    rintro ⟨-, ⟨h3, h4⟩, -⟩
    rcases hb with hb | hb <;> linarith
  · simp only [false_iff]
    rintro ⟨-, -, h5⟩
    linarith
  · push_neg at ha hb
    simp only [true_iff]
    exact ⟨⟨ha.1, ha.2⟩, ⟨hb.1, hb.2⟩, by linarith [not_lt.mp hc]⟩

/-- The peak criterion exactly as the specification words it: an
interior index whose value is a non-strict local maximum, at least the
adaptive percentile threshold, at least min_score, and rising at least
min_prominence above the lower neighbour. -/
def claimPeak (combined : List ℚ) (cfg : Config) (i : Nat) : Prop :=
  (1 ≤ i ∧ i ≤ combined.length - 2)
  ∧ combined.getD (i - 1) 0 ≤ combined.getD i 0
  ∧ combined.getD (i + 1) 0 ≤ combined.getD i 0
  ∧ npPercentile combined (100 - cfg.sensitivity * 40) ≤ combined.getD i 0
  ∧ cfg.min_score ≤ combined.getD i 0
  ∧ cfg.min_prominence ≤ combined.getD i 0
      - min (combined.getD (i - 1) 0) (combined.getD (i + 1) 0)

/-- C3: an index survives the peak loop's filters exactly when it
satisfies the specification's peak criterion. -/
theorem peak_characterization (combined : List ℚ) (cfg : Config) (i : Nat)
    (_hs0 : 0 ≤ cfg.sensitivity) (_hs1 : cfg.sensitivity ≤ 1) :
    i ∈ qualifyingIndices combined cfg ↔ claimPeak combined cfg i := by
  rw [qualifyingIndices, List.mem_filter, mem_range_one, passesPeakFilters_eq_true]
  unfold claimPeak signalThreshold
  constructor
  · rintro ⟨⟨h1, h2⟩, ⟨hl1, hl2⟩, ⟨ht, hm⟩, hp⟩
    exact ⟨⟨h1, by omega⟩, hl1, hl2, ht, hm, hp⟩
  · rintro ⟨⟨h1, h2⟩, hl1, hl2, ht, hm, hp⟩
    exact ⟨⟨h1, by omega⟩, ⟨hl1, hl2⟩, ⟨ht, hm⟩, hp⟩

/-- C3 witness: the characterization instantiated at the series
[0, 1, 0] and index 1 under the default configuration. -/
theorem peak_characterization_witness :
    ((0:ℚ) ≤ defaultConfig.sensitivity ∧ defaultConfig.sensitivity ≤ 1)
    ∧ (1 ∈ qualifyingIndices [0, 1, 0] defaultConfig
        ↔ claimPeak [0, 1, 0] defaultConfig 1) :=
  ⟨by norm_num [defaultConfig],
    peak_characterization [0, 1, 0] defaultConfig 1
      (by norm_num [defaultConfig]) (by norm_num [defaultConfig])⟩

theorem getD_map_mul (c : ℚ) : ∀ (l : List ℚ) (j : Nat),
    (l.map (fun x => c * x)).getD j 0 = c * l.getD j 0 := by
  intro l
  induction l with
  | nil => intro j; simp
  | cons a t ih =>
    intro j
    cases j with
    | zero => simp
    | succ j2 => simpa using ih j2

theorem npPercentile_scale (s : List ℚ) (q c : ℚ) (hc : 0 < c) :
    npPercentile (s.map (fun x => c * x)) q = c * npPercentile s q := by
  unfold npPercentile
  dsimp only
  rw [List.length_map]
  rw [← List.map_insertionSort (fun a b => a ≤ b) (fun a b => a ≤ b) (fun x => c * x) s
    (fun a _ b _ => (mul_le_mul_left hc).symm)]
  rw [getD_map_mul, getD_map_mul]
  ring

/-- The configuration with min_score and min_prominence scaled by c,
all other keys unchanged. -/
def scaleConfig (c : ℚ) (cfg : Config) : Config :=
  ⟨cfg.ge_enabled, cfg.prefer_events_over_ai, cfg.filter_my_kills_only,
   cfg.player_summoner_name, cfg.recording_start_offset, cfg.duration_seconds,
   cfg.padding_before, cfg.min_clip_length, cfg.audio_weight, cfg.motion_weight,
   cfg.sensitivity, c * cfg.min_score, c * cfg.min_prominence,
   cfg.min_seconds_between_clips, cfg.max_clips_per_video, cfg.window_seconds⟩

theorem passesPeakFilters_scale (s : List ℚ) (t ms mp c : ℚ) (hc : 0 < c) (i : Nat) :
    passesPeakFilters (s.map (fun x => c * x)) (c * t) (c * ms) (c * mp) i
      = passesPeakFilters s t ms mp i := by
  have hmin : ∀ a b : ℚ, min (c * a) (c * b) = c * min a b := fun a b =>
    ((monotone_mul_left_of_nonneg hc.le).map_min).symm
  have hiff : (passesPeakFilters (s.map (fun x => c * x)) (c * t) (c * ms) (c * mp) i = true)
      ↔ (passesPeakFilters s t ms mp i = true) := by
    rw [passesPeakFilters_eq_true, passesPeakFilters_eq_true,
      getD_map_mul, getD_map_mul, getD_map_mul, hmin]
    constructor
    · rintro ⟨⟨a1, a2⟩, ⟨a3, a4⟩, a5⟩
      rw [← mul_sub] at a5
      exact ⟨⟨(mul_le_mul_left hc).mp a1, (mul_le_mul_left hc).mp a2⟩,
        ⟨(mul_le_mul_left hc).mp a3, (mul_le_mul_left hc).mp a4⟩,
        (mul_le_mul_left hc).mp a5⟩
    · rintro ⟨⟨a1, a2⟩, ⟨a3, a4⟩, a5⟩
      refine ⟨⟨(mul_le_mul_left hc).mpr a1, (mul_le_mul_left hc).mpr a2⟩,
        ⟨(mul_le_mul_left hc).mpr a3, (mul_le_mul_left hc).mpr a4⟩, ?_⟩
      rw [← mul_sub]
      exact (mul_le_mul_left hc).mpr a5
  by_cases hb : passesPeakFilters s t ms mp i = true
  · exact (hiff.mpr hb).trans hb.symm
  · have ha : ¬(passesPeakFilters (s.map (fun x => c * x)) (c * t) (c * ms) (c * mp) i
        = true) := fun h => hb (hiff.mp h)
    rw [Bool.not_eq_true] at ha hb
    rw [ha, hb]

/-- C7 counterexample: scaling the combined series by the positive
constant 1/2 while leaving the configuration untouched changes the
selected peak set: index 1 of [0, 7/10, 0] qualifies under the default
configuration, but no index of [0, 7/20, 0] does (7/20 falls below the
unscaled min_score 3/5). -/
theorem peak_scale_invariance_cex :
    (0:ℚ) < 1/2
    ∧ qualifyingIndices [0, 7/10, 0] defaultConfig = [1]
    ∧ qualifyingIndices (List.map (fun x => (1/2) * x) [0, 7/10, 0]) defaultConfig = [] := by
  refine ⟨by norm_num, ?_, ?_⟩ <;>
    norm_num [qualifyingIndices, passesPeakFilters, signalThreshold, npPercentile,
      defaultConfig, List.insertionSort, List.orderedInsert, List.range', List.filter]

/-- C7 amended: scaling the combined series by a positive constant c
together with min_score and min_prominence (the adaptive threshold
scales by itself) selects exactly the same peak indices; scaling
min_prominence alone changes the selection (with min_prominence raised
from 3/20 to 1 the peak of [0, 7/10, 0] disappears). -/
theorem peak_scale_invariance (s : List ℚ) (cfg : Config) (c : ℚ) (hc : 0 < c) :
    qualifyingIndices (s.map (fun x => c * x)) (scaleConfig c cfg) = qualifyingIndices s cfg
    ∧ qualifyingIndices [0, 7/10, 0]
        ⟨true, true, false, none, 0, 30, 3, 15, 1/2, 1/2, 1/2, 3/5, 1, 120, 5, 4⟩
      ≠ qualifyingIndices [0, 7/10, 0] defaultConfig := by
  constructor
  · unfold qualifyingIndices
    rw [List.length_map]
    apply List.filter_congr
    intro i hi
    have hthr : signalThreshold (s.map (fun x => c * x)) (scaleConfig c cfg)
        = c * signalThreshold s cfg := by
      unfold signalThreshold scaleConfig
      exact npPercentile_scale s _ c hc
    rw [hthr]
    show passesPeakFilters (s.map (fun x => c * x)) (c * signalThreshold s cfg)
      (c * cfg.min_score) (c * cfg.min_prominence) i = _
    exact passesPeakFilters_scale s _ _ _ c hc i
  · norm_num [qualifyingIndices, passesPeakFilters, signalThreshold, npPercentile,
      defaultConfig, List.insertionSort, List.orderedInsert, List.range', List.filter]

/-- C7 witness: the amended invariance instantiated at the series
[0, 1, 0] and scale factor 2 under the default configuration. -/
theorem peak_scale_invariance_witness :
    (0:ℚ) < 2
    ∧ (qualifyingIndices (List.map (fun x => (2:ℚ) * x) [0, 1, 0]) (scaleConfig 2 defaultConfig)
        = qualifyingIndices [0, 1, 0] defaultConfig
      ∧ qualifyingIndices [0, 7/10, 0]
          ⟨true, true, false, none, 0, 30, 3, 15, 1/2, 1/2, 1/2, 3/5, 1, 120, 5, 4⟩
        ≠ qualifyingIndices [0, 7/10, 0] defaultConfig) :=
  ⟨by norm_num, peak_scale_invariance [0, 1, 0] defaultConfig 2 (by norm_num)⟩

/-- C4: for kills at wall-clock times T0, T0+130 and T0+260 in a
recording that started at T0-5, with offset 0, padding_before 3,
duration_seconds 30, min_seconds_between_clips 120 and at least 3
allowed clips, the Event Highlight Selector returns exactly the three
candidates starting at 2, 132 and 262 seconds, each ending 30 seconds
later with score 1, in ascending start order. -/
theorem event_path_three_kills (T0 : ℚ) (m : Nat) (hm : 3 ≤ m) :
    load_highlights_from_events
      (.parsed ⟨none, [⟨"ChampionKill", some T0, none, none, none, none⟩,
        ⟨"ChampionKill", some (T0 + 130), none, none, none, none⟩,
        ⟨"ChampionKill", some (T0 + 260), none, none, none, none⟩]⟩)
      (T0 - 5)
      ⟨true, true, false, none, 0, 30, 3, 15, 1/2, 1/2, 1/2, 3/5, 3/20, 120, m, 4⟩
    = some [⟨2, 32, 1, some "game_events"⟩, ⟨132, 162, 1, some "game_events"⟩,
        ⟨262, 292, 1, some "game_events"⟩] := by
  have hm0 : ¬ m ≤ 0 := by omega
  have hm1 : ¬ m ≤ 1 := by omega
  have hm2 : ¬ m ≤ 2 := by omega
  simp only [load_highlights_from_events, eventCandidate, Option.getD_some, Option.getD_none,
    List.filter, List.map, List.isEmpty_cons, decide_True, decide_False, Bool.false_and,
    Bool.and_self, Bool.false_eq_true, if_false, if_true]
  ring_nf
  norm_num [nmsSelect, nmsGo, List.insertionSort, List.orderedInsert, max_def, hm0, hm1, hm2]

/-- C4 witness: the three-kill event-path computation instantiated at
T0 = 1000 and max_clips_per_video = 3. -/
theorem event_path_three_kills_witness :
    3 ≤ 3
    ∧ load_highlights_from_events
        (.parsed ⟨none, [⟨"ChampionKill", some (1000:ℚ), none, none, none, none⟩,
          ⟨"ChampionKill", some ((1000:ℚ) + 130), none, none, none, none⟩,
          ⟨"ChampionKill", some ((1000:ℚ) + 260), none, none, none, none⟩]⟩)
        ((1000:ℚ) - 5)
        ⟨true, true, false, none, 0, 30, 3, 15, 1/2, 1/2, 1/2, 3/5, 3/20, 120, 3, 4⟩
      = some [⟨2, 32, 1, some "game_events"⟩, ⟨132, 162, 1, some "game_events"⟩,
          ⟨262, 292, 1, some "game_events"⟩] :=
  ⟨by norm_num, event_path_three_kills 1000 3 (by norm_num)⟩

end CreatorAssistant
